import Mathlib

/-!
Shallow embedding of `APIRequestCacher` (src/index.ts) and proofs about it.

The class keeps a `Map<string, {timestamp, data}>` cache, derives a string
cache key from `(url, method, headers, body)`, checks freshness with
`Date.now() - entry.timestamp > this.cacheDuration`, and routes every verb
through `fetchWithCache`, which optionally AES-encrypts request bodies
(CryptoJS) and decrypts/parses response bodies.

Modelling choices, each noted at its definition:
* JS values that can appear as JSON are the inductive `Jval`; `JSON.stringify`
  is `jvalStringify` (control-character escapes beyond `"` and `\` are elided:
  no property below depends on them).
* The CryptoJS AES ciphertext string is modelled algebraically by
  `Wire.cipher salt key plain`: `AES.encrypt` draws a fresh random salt per
  call, so the salt is an explicit parameter wherever the code calls it.
* Time is `Int` milliseconds (`Date.now()`), passed explicitly.
* The `fetch` transport is an external collaborator
  `url → options → Except error text`, per the spec's §6 collaborator
  contract; the engine never inspects the HTTP status itself.
-/

/-- JSON-serializable JavaScript values (the domain of `JSON.stringify` /
`JSON.parse` as the repository uses them). -/
inductive Jval where
  | jnull : Jval
  | jbool : Bool → Jval
  | jnum : Int → Jval
  | jstr : String → Jval
  | jarr : List Jval → Jval
  | jobj : List (String × Jval) → Jval

/-- JavaScript truthiness of a `Jval` (`!body` checks in the source).
`NaN` does not arise for integer-modelled numbers. -/
def jvalTruthy : Jval → Bool
  | .jnull => false
  | .jbool b => b
  | .jnum n => n != 0
  | .jstr s => s != ""
  | .jarr _ => true
  | .jobj _ => true

/-- Escape one character the way `JSON.stringify` escapes string contents.
Only `"` and `\` are escaped; the control-character escapes of real JSON are
elided because no claim below depends on a control character. -/
def escChar (c : Char) : List Char :=
  if c = '"' ∨ c = '\\' then ['\\', c] else [c]

/-- Escape every character of a string body (list-of-chars level). -/
def escapeChars : List Char → List Char
  | [] => []
  | c :: cs => escChar c ++ escapeChars cs

/-- Left inverse of `escapeChars`: decode a backslash escape sequence. -/
def unescapeChars : List Char → List Char
  | [] => []
  | c :: cs =>
    if c = '\\' then
      match cs with
      | [] => []
      | d :: ds => d :: unescapeChars ds
    else c :: unescapeChars cs

/-- Model of `JSON.stringify` on a JS string: quote and escape. -/
def jsonQuote (s : String) : String :=
  ⟨'"' :: escapeChars s.data ++ ['"']⟩

mutual
/-- Model of `JSON.stringify` on a `Jval` (keys kept in insertion order,
as JS does). -/
def jvalStringify : Jval → String
  | .jnull => "null"
  | .jbool true => "true"
  | .jbool false => "false"
  | .jnum n => toString n
  | .jstr s => jsonQuote s
  | .jarr xs => "[" ++ jarrStringify xs ++ "]"
  | .jobj fs => "\x7b" ++ jobjStringify fs ++ "\x7d"

/-- Comma-separated serialization of array elements. -/
def jarrStringify : List Jval → String
  | [] => ""
  | [x] => jvalStringify x
  | x :: y :: xs => jvalStringify x ++ "," ++ jarrStringify (y :: xs)

/-- Comma-separated serialization of object fields. -/
def jobjStringify : List (String × Jval) → String
  | [] => ""
  | [(k, v)] => jsonQuote k ++ ":" ++ jvalStringify v
  | (k, v) :: f :: fs => jsonQuote k ++ ":" ++ jvalStringify v ++ "," ++ jobjStringify (f :: fs)
end

/-- A JS value travelling through the engine as a request body or response
text.  `val v` is a plain value (as a response text: text that `JSON.parse`s
to `v`).  `cipher salt key plain` abstracts the CryptoJS
`AES.encrypt(JSON.stringify(plain), key).toString()` Base64 string: the code
relies only on it being decryptable with `key` and fresh per random `salt`.
`garbled s` is a response text that fails `JSON.parse` (malformed payload). -/
inductive Wire where
  | val : Jval → Wire
  | cipher : Nat → String → Jval → Wire
  | garbled : String → Wire

/-- Concrete injective stand-in for the Base64 ciphertext string produced by
CryptoJS (`"U2FsdGVkX1..."`); only its injectivity in the salt matters. -/
def cipherToString (salt : Nat) (key : String) (plain : Jval) : String :=
  "Salted__" ++ toString salt ++ ";" ++ key ++ ";" ++ jvalStringify plain

/-- JavaScript truthiness of a wire value (`options.body ?` in the source);
a ciphertext is a nonempty string, hence truthy. -/
def wireTruthy : Wire → Bool
  | .val v => jvalTruthy v
  | .cipher _ _ _ => true
  | .garbled s => s != ""

/-- `JSON.stringify` applied to a wire value (a ciphertext is just a JS
string, so it gets quoted). -/
def wireStringify : Wire → String
  | .val v => jvalStringify v
  | .cipher salt key plain => jsonQuote (cipherToString salt key plain)
  | .garbled s => jsonQuote s

/-- Model of `JSON.stringify` on a headers record (`Record<string, string>`),
insertion order preserved. -/
def headersStringify (hs : List (String × String)) : String :=
  "\x7b" ++ String.intercalate "," (hs.map fun p => jsonQuote p.1 ++ ":" ++ jsonQuote p.2) ++ "\x7d"

/-- The `RequestInit` options object: `none` models an absent (`undefined`)
field. -/
structure RequestInit where
  method : Option String := none
  headers : Option (List (String × String)) := none
  body : Option Wire := none

/-- Model of `getCacheKey` (src/index.ts lines 26-33):
url, method (`options.method || "GET"`, so an empty method string also
defaults), `JSON.stringify` of headers and body when present and truthy,
joined with `:`. -/
def getCacheKey (url : String) (options : RequestInit) : String :=
  let headersString := match options.headers with
    | some h => headersStringify h
    | none => ""
  let method := match options.method with
    | some m => if m = "" then "GET" else m
    | none => "GET"
  let bodyString := match options.body with
    | some w => if wireTruthy w then wireStringify w else ""
    | none => ""
  url ++ ":" ++ method ++ ":" ++ headersString ++ ":" ++ bodyString

/-- One cache entry: `{ timestamp: number; data: any }`. -/
structure CacheEntry where
  timestamp : Int
  data : Wire

/-- The `Map<string, CacheEntry>` as a function; JS `Map.set` replaces and
`Map.delete` removes. -/
abbrev CacheMap := String → Option CacheEntry

/-- Model of `Map.set`. -/
def CacheMap.set (m : CacheMap) (k : String) (e : CacheEntry) : CacheMap :=
  fun q => if q = k then some e else m q

/-- Model of `Map.delete`. -/
def CacheMap.del (m : CacheMap) (k : String) : CacheMap :=
  fun q => if q = k then none else m q

/-- The empty cache map (a fresh `new Map()`). -/
def CacheMap.empty : CacheMap := fun _ => none

/-- Model of `isInCache` (src/index.ts lines 35-46), a stateful lookup:
absent key reports false; an entry with `now - timestamp > cacheDuration`
is deleted (lazy eviction) and reported false; otherwise true, map untouched.
Returns the verdict together with the possibly-shrunk map. -/
def isInCache (cacheDuration : Int) (now : Int) (cache : CacheMap) (cacheKey : String) :
    Bool × CacheMap :=
  match cache cacheKey with
  | none => (false, cache)
  | some cacheEntry =>
    if now - cacheEntry.timestamp > cacheDuration then
      (false, cache.del cacheKey)
    else
      (true, cache)

/-- Model of `cacheResponse` (src/index.ts lines 48-50). -/
def cacheResponse (cache : CacheMap) (cacheKey : String) (now : Int) (data : Wire) : CacheMap :=
  cache.set cacheKey ⟨now, data⟩

/-- A before-request hook: receives the options, may mutate them (modelled
as returning the new options) or throw (modelled as `Except.error`). -/
abbrev BeforeHook := RequestInit → Except String RequestInit

/-- An after-request hook: observes the response, may throw. -/
abbrev AfterHook := Wire → Except String Unit

/-- Constructor-time configuration of one `APIRequestCacher` instance
(src/index.ts lines 12-24); `cacheDuration` is already in milliseconds. -/
structure Config where
  cacheDuration : Int
  beforeRequestHooks : List BeforeHook
  afterRequestHooks : List AfterHook
  encryptionKey : Option String
  encryptRequests : Bool

/-- Model of the constructor: seconds are converted to milliseconds. -/
def mkAPIRequestCacher (cacheDurationInSeconds : Int := 3)
    (beforeRequestHooks : List BeforeHook := [])
    (afterRequestHooks : List AfterHook := [])
    (encryptionKey : Option String := none)
    (encryptRequests : Bool := false) : Config :=
  { cacheDuration := cacheDurationInSeconds * 1000
    beforeRequestHooks, afterRequestHooks, encryptionKey, encryptRequests }

/-- Model of `executeBeforeRequestHooks` (src/index.ts lines 52-54):
`forEach` over the hooks against the mutable options; a throw stops the
iteration and propagates. -/
def executeBeforeRequestHooks : List BeforeHook → RequestInit → Except String RequestInit
  | [], options => .ok options
  | hook :: hooks, options =>
    match hook options with
    | .ok options2 => executeBeforeRequestHooks hooks options2
    | .error e => .error e

/-- Model of `executeAfterRequestHooks` (src/index.ts lines 56-58). -/
def executeAfterRequestHooks : List AfterHook → Wire → Except String Unit
  | [], _ => .ok ()
  | hook :: hooks, response =>
    match hook response with
    | .ok _ => executeAfterRequestHooks hooks response
    | .error e => .error e

/-- Model of `encryptRequestBody` (src/index.ts lines 63-71): the guard
`!this.encryptionKey || !this.encryptRequests || !body` is JS falsiness, so a
`null` key, an empty-string key, a disabled flag, or a falsy body passes the
body through unchanged; otherwise the body becomes
`AES.encrypt(JSON.stringify(body), key)` — a ciphertext under a fresh random
`salt`, made an explicit parameter here. -/
def encryptRequestBody (cfg : Config) (salt : Nat) (body : Jval) : Wire :=
  match cfg.encryptionKey with
  | none => .val body
  | some ek =>
    if ek = "" || !cfg.encryptRequests || !jvalTruthy body then .val body
    else .cipher salt ek body

/-- Errors a `fetchWithCache` promise can reject with. -/
inductive FetchError where
  | transportError : String → FetchError
  | decodeError : FetchError
  | hookError : String → FetchError

/-- Model of `decryptResponseBody` (src/index.ts lines 76-82): the guard
`!this.encryptionKey || !this.encryptRequests` is JS falsiness, so with a
`null` key, an empty-string key, or encryption disabled the input text is
returned unchanged; otherwise `AES.decrypt` + `JSON.parse`: a ciphertext
under the right key yields its plaintext value; anything else (wrong key, or
a non-ciphertext string, whose decryption is garbage) makes `JSON.parse`
throw. -/
def decryptResponseBody (cfg : Config) (text : Wire) : Except FetchError Wire :=
  match cfg.encryptionKey with
  | none => .ok text
  | some ek =>
    if ek = "" || !cfg.encryptRequests then .ok text
    else
      match text with
      | .cipher _ k plain => if k = ek then .ok (.val plain) else .error .decodeError
      | _ => .error .decodeError

/-- Model of `JSON.parse(text)` on a response text (the non-encrypted branch
of `fetchWithCache`): plain JSON text parses to its value; a CryptoJS
ciphertext (Base64 starting `U2FsdGVkX1`) or garbled text throws. -/
def jsonParseText : Wire → Except FetchError Wire
  | .val v => .ok (.val v)
  | .cipher _ _ _ => .error .decodeError
  | .garbled _ => .error .decodeError

/-- The external transport collaborator: `fetch(url, options)` composed with
`response.text()`; failure (network error, aborted body read) rejects. -/
abbrev Transport := String → RequestInit → Except String Wire

/-- Observable outcome of one `fetchWithCache` call: the settled promise, the
cache map afterwards, the transport invocations (with the options the
transport received), and whether each hook phase ran. -/
structure FetchOutcome where
  result : Except FetchError Wire
  state : CacheMap
  transportCalls : List (String × RequestInit)
  beforeHooksRan : Bool
  afterHooksRan : Bool

/-- Model of `this.cache.get(cacheKey)?.data`; the `none` branch is JS
`undefined` (modelled as `null`) and is unreachable on the hit path, where
`isInCache` has just returned `true` without deleting. -/
def cacheGetData (cache : CacheMap) (cacheKey : String) : Wire :=
  match cache cacheKey with
  | some e => e.data
  | none => .val .jnull

/-- Model of `fetchWithCache` (src/index.ts lines 189-212).
Key is derived from the options before hooks run; `!force &&
this.isInCache(key)` short-circuits, so a forced call never evaluates
`isInCache` (no lazy eviction); a hit resolves with the stored data; a miss
runs before-hooks (a throw aborts before the transport), calls the transport
with the mutated options, decodes (`decryptResponseBody` when
`encryptRequests`, else `JSON.parse`), caches the decoded body with the
current timestamp, then runs after-hooks, whose throw rejects the promise
after the body is already cached. -/
def fetchWithCache (cfg : Config) (transport : Transport) (now : Int)
    (cache : CacheMap) (url : String) (options : RequestInit) (force : Bool) :
    FetchOutcome :=
  let cacheKey := getCacheKey url options
  let checked := if force then (false, cache) else isInCache cfg.cacheDuration now cache cacheKey
  let cache1 := checked.2
  if checked.1 then
    { result := .ok (cacheGetData cache1 cacheKey), state := cache1,
      transportCalls := [], beforeHooksRan := false, afterHooksRan := false }
  else
    match executeBeforeRequestHooks cfg.beforeRequestHooks options with
    | .error e =>
      { result := .error (.hookError e), state := cache1,
        transportCalls := [], beforeHooksRan := true, afterHooksRan := false }
    | .ok options2 =>
      match transport url options2 with
      | .error e =>
        { result := .error (.transportError e), state := cache1,
          transportCalls := [(url, options2)], beforeHooksRan := true, afterHooksRan := false }
      | .ok text =>
        match (if cfg.encryptRequests then decryptResponseBody cfg text else jsonParseText text) with
        | .error e =>
          { result := .error e, state := cache1,
            transportCalls := [(url, options2)], beforeHooksRan := true, afterHooksRan := false }
        | .ok responseBody =>
          let cache2 := cacheResponse cache1 cacheKey now responseBody
          match executeAfterRequestHooks cfg.afterRequestHooks responseBody with
          | .error e =>
            { result := .error (.hookError e), state := cache2,
              transportCalls := [(url, options2)], beforeHooksRan := true, afterHooksRan := true }
          | .ok _ =>
            { result := .ok responseBody, state := cache2,
              transportCalls := [(url, options2)], beforeHooksRan := true, afterHooksRan := true }

/-- Model of `get` (src/index.ts lines 87-93). -/
def get (cfg : Config) (transport : Transport) (now : Int) (cache : CacheMap)
    (url : String) (options : RequestInit := {}) (force : Bool := false) : FetchOutcome :=
  fetchWithCache cfg transport now cache url { options with method := some "GET" } force

/-- Model of `post` (src/index.ts lines 109-121): the body is encrypted
first, and the (possibly ciphertext) result is what `fetchWithCache` sees —
and hence what `getCacheKey` serializes. -/
def post (cfg : Config) (transport : Transport) (now : Int) (cache : CacheMap)
    (url : String) (body : Jval) (options : RequestInit := {}) (force : Bool := false)
    (salt : Nat := 0) : FetchOutcome :=
  let encryptedBody := encryptRequestBody cfg salt body
  fetchWithCache cfg transport now cache url
    { options with method := some "POST", body := some encryptedBody } force

/-- Model of `put` (src/index.ts lines 138-150). -/
def put (cfg : Config) (transport : Transport) (now : Int) (cache : CacheMap)
    (url : String) (body : Jval) (options : RequestInit := {}) (force : Bool := false)
    (salt : Nat := 0) : FetchOutcome :=
  let encryptedBody := encryptRequestBody cfg salt body
  fetchWithCache cfg transport now cache url
    { options with method := some "PUT", body := some encryptedBody } force

/-- Model of `delete` (src/index.ts lines 167-173). -/
def deleteReq (cfg : Config) (transport : Transport) (now : Int) (cache : CacheMap)
    (url : String) (options : RequestInit := {}) (force : Bool := false) : FetchOutcome :=
  fetchWithCache cfg transport now cache url { options with method := some "DELETE" } force

/-- Frame predicate: relative to `old`, the map `new` has no entry added or
updated; at most some stale entries were removed. -/
def evictionOnly (cd now : Int) (old new : CacheMap) : Prop :=
  ∀ q, new q = old q ∨
    (new q = none ∧ ∃ e, old q = some e ∧ now - e.timestamp > cd)

/-! ### Helper lemmas characterizing `isInCache` and the paths of
`fetchWithCache`. -/

/-- A fresh entry (age at most the duration) is a hit and leaves the map
untouched. -/
theorem isInCache_fresh {cd now : Int} {cache : CacheMap} {k : String} {e : CacheEntry}
    (hk : cache k = some e) (hle : now - e.timestamp ≤ cd) :
    isInCache cd now cache k = (true, cache) := by
  unfold isInCache
  rw [hk]
  simp [not_lt.mpr hle]

/-- A stale entry (age strictly above the duration) is a miss and is deleted. -/
theorem isInCache_stale {cd now : Int} {cache : CacheMap} {k : String} {e : CacheEntry}
    (hk : cache k = some e) (hgt : now - e.timestamp > cd) :
    isInCache cd now cache k = (false, cache.del k) := by
  unfold isInCache
  rw [hk]
  simp [hgt]

/-- An absent key is a miss and leaves the map untouched. -/
theorem isInCache_absent {cd now : Int} {cache : CacheMap} {k : String}
    (hk : cache k = none) : isInCache cd now cache k = (false, cache) := by
  unfold isInCache
  rw [hk]

/-- The lookup never touches entries under other keys. -/
theorem isInCache_other {cd now : Int} {cache : CacheMap} {k q : String}
    (hq : q ≠ k) : (isInCache cd now cache k).2 q = cache q := by
  unfold isInCache
  cases hk : cache k with
  | none => rfl
  | some e =>
    by_cases hgt : now - e.timestamp > cd
    · simp [hgt, CacheMap.del, hq]
    · simp [hgt]

/-- The stateful lookup only ever evicts stale entries. -/
theorem isInCache_evictionOnly (cd now : Int) (cache : CacheMap) (k : String) :
    evictionOnly cd now cache (isInCache cd now cache k).2 := by
  intro q
  unfold isInCache
  cases hk : cache k with
  | none => exact .inl rfl
  | some e =>
    by_cases hgt : now - e.timestamp > cd
    · simp only [hgt, if_pos, CacheMap.del]
      by_cases hq : q = k
      · subst hq
        exact .inr ⟨by simp, e, hk, hgt⟩
      · exact .inl (by simp [hq])
    · simp only [hgt, if_neg]
      exact .inl rfl

/-- Cache-hit path of `fetchWithCache`: with `force = false` and a fresh
entry under the derived key, the promise resolves with the stored data, the
map is untouched, the transport is not called, and no hook phase runs. -/
theorem fetchWithCache_hit {cfg : Config} {transport : Transport} {now : Int}
    {cache : CacheMap} {url : String} {options : RequestInit} {e : CacheEntry}
    (hk : cache (getCacheKey url options) = some e)
    (hle : now - e.timestamp ≤ cfg.cacheDuration) :
    fetchWithCache cfg transport now cache url options false =
      ⟨.ok e.data, cache, [], false, false⟩ := by
  unfold fetchWithCache
  simp only [Bool.false_eq_true, if_false, isInCache_fresh hk hle, if_true]
  simp [cacheGetData, hk]

/-- Before-hook-throw path: after a (possibly evicting) missed lookup, a
throwing before-hook rejects the promise before any transport call; the
after-hooks never run and nothing is stored. -/
theorem fetchWithCache_beforeThrow {cfg : Config} {transport : Transport} {now : Int}
    {cache cache1 : CacheMap} {url : String} {options : RequestInit} {force : Bool} {e : String}
    (hchk : (if force then ((false : Bool), cache)
        else isInCache cfg.cacheDuration now cache (getCacheKey url options)) = (false, cache1))
    (hb : executeBeforeRequestHooks cfg.beforeRequestHooks options = .error e) :
    fetchWithCache cfg transport now cache url options force =
      ⟨.error (.hookError e), cache1, [], true, false⟩ := by
  unfold fetchWithCache
  simp only [hchk, hb]
  rfl

/-- Transport-failure path: the rejection is propagated, nothing is stored,
after-hooks are skipped. -/
theorem fetchWithCache_transportFail {cfg : Config} {transport : Transport} {now : Int}
    {cache cache1 : CacheMap} {url : String} {options options2 : RequestInit} {force : Bool}
    {err : String}
    (hchk : (if force then ((false : Bool), cache)
        else isInCache cfg.cacheDuration now cache (getCacheKey url options)) = (false, cache1))
    (hb : executeBeforeRequestHooks cfg.beforeRequestHooks options = .ok options2)
    (ht : transport url options2 = .error err) :
    fetchWithCache cfg transport now cache url options force =
      ⟨.error (.transportError err), cache1, [(url, options2)], true, false⟩ := by
  unfold fetchWithCache
  simp only [hchk, hb, ht]
  rfl

/-- Decode-failure path (malformed payload or decryption failure): the error
is propagated, nothing is stored, after-hooks are skipped. -/
theorem fetchWithCache_decodeFail {cfg : Config} {transport : Transport} {now : Int}
    {cache cache1 : CacheMap} {url : String} {options options2 : RequestInit} {force : Bool}
    {text : Wire} {de : FetchError}
    (hchk : (if force then ((false : Bool), cache)
        else isInCache cfg.cacheDuration now cache (getCacheKey url options)) = (false, cache1))
    (hb : executeBeforeRequestHooks cfg.beforeRequestHooks options = .ok options2)
    (ht : transport url options2 = .ok text)
    (hd : (if cfg.encryptRequests then decryptResponseBody cfg text else jsonParseText text) =
      .error de) :
    fetchWithCache cfg transport now cache url options force =
      ⟨.error de, cache1, [(url, options2)], true, false⟩ := by
  unfold fetchWithCache
  simp only [hchk, hb, ht, hd]
  rfl

/-- Success path: the decoded body is cached under the pre-hook key with the
call's timestamp, then the after-hooks run, then the promise resolves. -/
theorem fetchWithCache_success {cfg : Config} {transport : Transport} {now : Int}
    {cache cache1 : CacheMap} {url : String} {options options2 : RequestInit} {force : Bool}
    {text responseBody : Wire}
    (hchk : (if force then ((false : Bool), cache)
        else isInCache cfg.cacheDuration now cache (getCacheKey url options)) = (false, cache1))
    (hb : executeBeforeRequestHooks cfg.beforeRequestHooks options = .ok options2)
    (ht : transport url options2 = .ok text)
    (hd : (if cfg.encryptRequests then decryptResponseBody cfg text else jsonParseText text) =
      .ok responseBody)
    (ha : executeAfterRequestHooks cfg.afterRequestHooks responseBody = .ok ()) :
    fetchWithCache cfg transport now cache url options force =
      ⟨.ok responseBody, cacheResponse cache1 (getCacheKey url options) now responseBody,
        [(url, options2)], true, true⟩ := by
  unfold fetchWithCache
  simp only [hchk, hb, ht, hd, ha]
  rfl

/-- After-hook-throw path: the body is already cached when an after-hook
throws, so the promise rejects with the hook error while the entry stays. -/
theorem fetchWithCache_afterThrow {cfg : Config} {transport : Transport} {now : Int}
    {cache cache1 : CacheMap} {url : String} {options options2 : RequestInit} {force : Bool}
    {text responseBody : Wire} {e : String}
    (hchk : (if force then ((false : Bool), cache)
        else isInCache cfg.cacheDuration now cache (getCacheKey url options)) = (false, cache1))
    (hb : executeBeforeRequestHooks cfg.beforeRequestHooks options = .ok options2)
    (ht : transport url options2 = .ok text)
    (hd : (if cfg.encryptRequests then decryptResponseBody cfg text else jsonParseText text) =
      .ok responseBody)
    (ha : executeAfterRequestHooks cfg.afterRequestHooks responseBody = .error e) :
    fetchWithCache cfg transport now cache url options force =
      ⟨.error (.hookError e), cacheResponse cache1 (getCacheKey url options) now responseBody,
        [(url, options2)], true, true⟩ := by
  unfold fetchWithCache
  simp only [hchk, hb, ht, hd, ha]
  rfl


/-- Inversion of a hit: the lookup reports true exactly when a sufficiently
young entry is present. -/
theorem isInCache_true_iff (cd now : Int) (cache : CacheMap) (k : String) :
    (isInCache cd now cache k).1 = true ↔
      ∃ e, cache k = some e ∧ now - e.timestamp ≤ cd := by
  unfold isInCache
  cases hk : cache k with
  | none => simp
  | some e =>
    by_cases hgt : now - e.timestamp > cd
    · simp [hgt]
      omega
    · simp [hgt]
      omega

/-! ### The claims. -/

/-- Claim C2, counterexample.  The claim says freshness is strict
(`now - timestamp < ttl`) and that an entry whose age is exactly `ttl` is
stale and not returned by a lookup.  In the code an entry is evicted only
when `now - timestamp > cacheDuration`, so an entry exactly `ttl` old (here
age 3000 = ttl 3000) is reported as a hit even though the claimed strict
bound fails. -/
theorem C2_counterexample :
    (isInCache 3000 3000 (CacheMap.empty.set "k" ⟨0, .val (.jnum 1)⟩) "k").1 = true ∧
    ¬((3000 : Int) - 0 < 3000) := by
  decide

/-- Claim C2, amended: freshness is the non-strict comparison — for a present
entry the lookup reports a hit iff `now - entry.timestamp ≤ ttl`; in
particular an entry whose age is exactly `ttl` is still fresh and is
returned. -/
theorem C2_freshness_is_nonstrict (cd now : Int) (cache : CacheMap) (k : String)
    (e : CacheEntry) (hk : cache k = some e) :
    (isInCache cd now cache k).1 = true ↔ now - e.timestamp ≤ cd := by
  rw [isInCache_true_iff]
  constructor
  · rintro ⟨e1, he, hle⟩
    rw [hk] at he
    cases he
    exact hle
  · intro hle
    exact ⟨e, hk, hle⟩

/-- Witness for C2: a concrete entry of age exactly equal to the duration is
a hit. -/
theorem C2_freshness_is_nonstrict_witness :
    (isInCache 3000 3000 (CacheMap.empty.set "k" ⟨0, .val (.jnum 1)⟩) "k").1 = true ↔
      (3000 : Int) - 0 ≤ 3000 :=
  C2_freshness_is_nonstrict 3000 3000 _ "k" ⟨0, .val (.jnum 1)⟩ rfl

/-- Claim C8, confirmed: eviction is lazy and local.  A lookup that finds a
stale entry removes exactly that entry and reports a miss, leaving every
other key untouched; a lookup that finds a fresh entry or no entry removes
nothing (the map is returned unchanged). -/
theorem C8_lazy_local_eviction (cd now : Int) (cache : CacheMap) (k : String) :
    (∀ e, cache k = some e → now - e.timestamp > cd →
      (isInCache cd now cache k).1 = false ∧
      (isInCache cd now cache k).2 k = none ∧
      ∀ q, q ≠ k → (isInCache cd now cache k).2 q = cache q) ∧
    (∀ e, cache k = some e → now - e.timestamp ≤ cd →
      isInCache cd now cache k = (true, cache)) ∧
    (cache k = none → isInCache cd now cache k = (false, cache)) := by
  refine ⟨fun e hk hgt => ?_, fun e hk hle => isInCache_fresh hk hle,
    fun hk => isInCache_absent hk⟩
  rw [isInCache_stale hk hgt]
  exact ⟨rfl, by simp [CacheMap.del], fun q hq => by simp [CacheMap.del, hq]⟩

/-- Witness for C8: in a two-entry map, looking up the stale entry `"k"`
(age 5000 > ttl 3000) misses, deletes exactly `"k"`, and leaves `"o"`
untouched. -/
theorem C8_lazy_local_eviction_witness :
    (isInCache 3000 5000
      ((CacheMap.empty.set "k" ⟨0, .val (.jnum 1)⟩).set "o" ⟨4000, .val (.jnum 2)⟩) "k").1
        = false ∧
    (isInCache 3000 5000
      ((CacheMap.empty.set "k" ⟨0, .val (.jnum 1)⟩).set "o" ⟨4000, .val (.jnum 2)⟩) "k").2 "k"
        = none ∧
    (isInCache 3000 5000
      ((CacheMap.empty.set "k" ⟨0, .val (.jnum 1)⟩).set "o" ⟨4000, .val (.jnum 2)⟩) "k").2 "o"
        = some ⟨4000, .val (.jnum 2)⟩ := by
  have h := (C8_lazy_local_eviction 3000 5000
    ((CacheMap.empty.set "k" ⟨0, .val (.jnum 1)⟩).set "o" ⟨4000, .val (.jnum 2)⟩) "k").1
    ⟨0, .val (.jnum 1)⟩ rfl (by decide)
  exact ⟨h.1, h.2.1, (h.2.2 "o" (by decide)).trans rfl⟩

/-- Claim C3, confirmed: on a cache hit (`force` is false and a fresh entry
exists for the derived key) `fetchWithCache` resolves with the stored
payload, leaves the cache untouched, does not invoke the transport, and runs
neither before- nor after-hooks. -/
theorem C3_cache_hit_no_transport_no_hooks (cfg : Config) (transport : Transport)
    (now : Int) (cache : CacheMap) (url : String) (options : RequestInit) (e : CacheEntry)
    (hk : cache (getCacheKey url options) = some e)
    (hfresh : now - e.timestamp ≤ cfg.cacheDuration) :
    fetchWithCache cfg transport now cache url options false =
      ⟨.ok e.data, cache, [], false, false⟩ :=
  fetchWithCache_hit hk hfresh

/-- Witness for C3: a concrete hit returns the stored value `7` with no
transport call and no hook phase. -/
theorem C3_cache_hit_witness :
    fetchWithCache (mkAPIRequestCacher) (fun _ _ => .error "net") 1000
      (CacheMap.empty.set "u:GET::" ⟨0, .val (.jnum 7)⟩) "u" {} false =
      ⟨.ok (.val (.jnum 7)), CacheMap.empty.set "u:GET::" ⟨0, .val (.jnum 7)⟩,
        [], false, false⟩ :=
  C3_cache_hit_no_transport_no_hooks (mkAPIRequestCacher) (fun _ _ => .error "net") 1000
    (CacheMap.empty.set "u:GET::" ⟨0, .val (.jnum 7)⟩) "u" {} ⟨0, .val (.jnum 7)⟩
    rfl (by decide)

/-- Claim C4, confirmed: for every cache state, `force = true` skips the
cache read (the lookup is short-circuited, so even a fresh entry is ignored
and never evicted) and invokes the transport with the hook-mutated options;
on successful settlement the decoded result overwrites whatever entry the
key had, timestamped with the current time. -/
theorem C4_force_always_fetches_and_overwrites (cfg : Config) (transport : Transport)
    (now : Int) (cache : CacheMap) (url : String) (options options2 : RequestInit)
    (text responseBody : Wire)
    (hb : executeBeforeRequestHooks cfg.beforeRequestHooks options = .ok options2)
    (ht : transport url options2 = .ok text)
    (hd : (if cfg.encryptRequests then decryptResponseBody cfg text else jsonParseText text) =
      .ok responseBody)
    (ha : executeAfterRequestHooks cfg.afterRequestHooks responseBody = .ok ()) :
    fetchWithCache cfg transport now cache url options true =
      ⟨.ok responseBody, cache.set (getCacheKey url options) ⟨now, responseBody⟩,
        [(url, options2)], true, true⟩ :=
  fetchWithCache_success rfl hb ht hd ha

/-- Witness for C4: with a fresh entry `1` already cached under the key, a
forced call still invokes the transport and overwrites the entry with the
new value `2` at the new timestamp. -/
theorem C4_force_always_fetches_witness :
    fetchWithCache (mkAPIRequestCacher) (fun _ _ => .ok (.val (.jnum 2))) 1000
      (CacheMap.empty.set "u:GET::" ⟨0, .val (.jnum 1)⟩) "u" {} true =
      ⟨.ok (.val (.jnum 2)),
        (CacheMap.empty.set "u:GET::" ⟨0, .val (.jnum 1)⟩).set "u:GET::" ⟨1000, .val (.jnum 2)⟩,
        [("u", {})], true, true⟩ :=
  C4_force_always_fetches_and_overwrites (mkAPIRequestCacher) (fun _ _ => .ok (.val (.jnum 2)))
    1000 (CacheMap.empty.set "u:GET::" ⟨0, .val (.jnum 1)⟩) "u" {} {}
    (.val (.jnum 2)) (.val (.jnum 2)) rfl rfl rfl rfl

/-- Claim C5, counterexample.  The claim says that on a before-hook throw the
failure is propagated and the cache state is unchanged.  Propagation holds,
but on a non-forced call the lookup that precedes the hooks has already
lazily evicted a stale entry under the derived key, so the cache state did
change: here `"u:GET::"` held an entry before the call and holds none after
it. -/
theorem C5_counterexample :
    (fetchWithCache (mkAPIRequestCacher 3 [fun _ => .error "boom"] [] none false)
        (fun _ _ => .ok (.val (.jnum 2))) 5000
        (CacheMap.empty.set "u:GET::" ⟨0, .val (.jnum 1)⟩) "u" {} false).result =
      .error (.hookError "boom") ∧
    CacheMap.empty.set "u:GET::" ⟨0, .val (.jnum 1)⟩ "u:GET::" = some ⟨0, .val (.jnum 1)⟩ ∧
    (fetchWithCache (mkAPIRequestCacher 3 [fun _ => .error "boom"] [] none false)
        (fun _ _ => .ok (.val (.jnum 2))) 5000
        (CacheMap.empty.set "u:GET::" ⟨0, .val (.jnum 1)⟩) "u" {} false).state "u:GET::" =
      none :=
  ⟨rfl, rfl, rfl⟩

/-- Claim C5, amended: on any failure of a call that reaches past the cache
lookup — a throwing before-hook, a transport failure, or a decode failure
(malformed payload or decryption failure) — the failure is propagated to the
caller, no entry is added to or updated in the cache (though the missed
lookup itself may already have lazily evicted a stale entry), and after-hooks
do not run; a throwing before-hook additionally aborts before the transport
is invoked. -/
theorem C5_failures_propagate_nothing_stored (cfg : Config) (transport : Transport)
    (now : Int) (cache cache1 : CacheMap) (url : String) (options : RequestInit) (force : Bool)
    (hchk : (if force then ((false : Bool), cache)
        else isInCache cfg.cacheDuration now cache (getCacheKey url options)) = (false, cache1)) :
    (∀ e, executeBeforeRequestHooks cfg.beforeRequestHooks options = .error e →
      fetchWithCache cfg transport now cache url options force =
        ⟨.error (.hookError e), cache1, [], true, false⟩) ∧
    (∀ options2 err, executeBeforeRequestHooks cfg.beforeRequestHooks options = .ok options2 →
      transport url options2 = .error err →
      fetchWithCache cfg transport now cache url options force =
        ⟨.error (.transportError err), cache1, [(url, options2)], true, false⟩) ∧
    (∀ options2 text de, executeBeforeRequestHooks cfg.beforeRequestHooks options = .ok options2 →
      transport url options2 = .ok text →
      (if cfg.encryptRequests then decryptResponseBody cfg text else jsonParseText text) =
        .error de →
      fetchWithCache cfg transport now cache url options force =
        ⟨.error de, cache1, [(url, options2)], true, false⟩) ∧
    evictionOnly cfg.cacheDuration now cache cache1 := by
  refine ⟨fun e hb => fetchWithCache_beforeThrow hchk hb,
    fun options2 err hb ht => fetchWithCache_transportFail hchk hb ht,
    fun options2 text de hb ht hd => fetchWithCache_decodeFail hchk hb ht hd, ?_⟩
  cases force with
  | false =>
    simp only [Bool.false_eq_true, if_false] at hchk
    have h2 : (isInCache cfg.cacheDuration now cache (getCacheKey url options)).2 = cache1 :=
      congrArg Prod.snd hchk
    rw [← h2]
    exact isInCache_evictionOnly cfg.cacheDuration now cache (getCacheKey url options)
  | true =>
    simp only [if_true] at hchk
    have h2 : cache = cache1 := congrArg Prod.snd hchk
    intro q
    rw [← h2]
    exact .inl rfl

/-- Witness for C5: a transport failure on an empty cache propagates the
error, stores nothing, and skips the after-hooks. -/
theorem C5_failures_propagate_witness :
    fetchWithCache (mkAPIRequestCacher) (fun _ _ => .error "ECONNREFUSED") 0
      CacheMap.empty "u" {} false =
      ⟨.error (.transportError "ECONNREFUSED"), CacheMap.empty, [("u", {})], true, false⟩ :=
  (C5_failures_propagate_nothing_stored (mkAPIRequestCacher)
      (fun _ _ => .error "ECONNREFUSED") 0 CacheMap.empty CacheMap.empty "u" {} false
      rfl).2.1 {} "ECONNREFUSED" rfl rfl

/-- Claim C9, confirmed: the cache key is computed from the caller's options
before the before-hooks run, so whatever the configured hook lists are
(the statement quantifies over every `cfg`), a call reads and writes the
map only under `getCacheKey url options` — a function of the unmutated
request alone — and a call that actually reached the transport and resolved
stores its entry under exactly that key.  Hence two engines differing only
in their before-hook lists derive and store under the same cache key. -/
theorem C9_key_derived_before_hooks (cfg : Config) (transport : Transport) (now : Int)
    (cache : CacheMap) (url : String) (options : RequestInit) (force : Bool) :
    (∀ q, q ≠ getCacheKey url options →
      (fetchWithCache cfg transport now cache url options force).state q = cache q) ∧
    (∀ body, (fetchWithCache cfg transport now cache url options force).result = .ok body →
      (fetchWithCache cfg transport now cache url options force).transportCalls ≠ [] →
      (fetchWithCache cfg transport now cache url options force).state
        (getCacheKey url options) = some ⟨now, body⟩) := by
  rcases hchk : (if force then ((false : Bool), cache)
      else isInCache cfg.cacheDuration now cache (getCacheKey url options)) with ⟨b, cache1⟩
  have hc1 : ∀ q, q ≠ getCacheKey url options → cache1 q = cache q := by
    intro q hq
    cases force with
    | false =>
      simp only [Bool.false_eq_true, if_false] at hchk
      have h2 : (isInCache cfg.cacheDuration now cache (getCacheKey url options)).2 = cache1 :=
        congrArg Prod.snd hchk
      rw [← h2]
      exact isInCache_other hq
    | true =>
      simp only [if_true] at hchk
      have h2 : cache = cache1 := congrArg Prod.snd hchk
      rw [← h2]
  cases b with
  | true =>
    have hforce : force = false := by
      cases force with
      | false => rfl
      | true => simp only [if_true] at hchk; cases congrArg Prod.fst hchk
    subst hforce
    simp only [Bool.false_eq_true, if_false] at hchk
    have hhit : (isInCache cfg.cacheDuration now cache (getCacheKey url options)).1 = true := by
      rw [hchk]
    obtain ⟨e, hk, hle⟩ := (isInCache_true_iff _ _ _ _).mp hhit
    rw [fetchWithCache_hit hk hle]
    exact ⟨fun q _ => rfl, fun body _ htc => absurd rfl htc⟩
  | false =>
    cases hb : executeBeforeRequestHooks cfg.beforeRequestHooks options with
    | error e =>
      rw [fetchWithCache_beforeThrow hchk hb]
      exact ⟨fun q hq => hc1 q hq, fun body hr => by cases hr⟩
    | ok options2 =>
      cases ht : transport url options2 with
      | error err =>
        rw [fetchWithCache_transportFail hchk hb ht]
        exact ⟨fun q hq => hc1 q hq, fun body hr => by cases hr⟩
      | ok text =>
        cases hd : (if cfg.encryptRequests then decryptResponseBody cfg text
            else jsonParseText text) with
        | error de =>
          rw [fetchWithCache_decodeFail hchk hb ht hd]
          exact ⟨fun q hq => hc1 q hq, fun body hr => by cases hr⟩
        | ok responseBody =>
          cases ha : executeAfterRequestHooks cfg.afterRequestHooks responseBody with
          | error e =>
            rw [fetchWithCache_afterThrow hchk hb ht hd ha]
            refine ⟨fun q hq => ?_, fun body hr => by cases hr⟩
            simp only [cacheResponse, CacheMap.set, if_neg hq]
            exact hc1 q hq
          | ok u =>
            cases u
            rw [fetchWithCache_success hchk hb ht hd ha]
            refine ⟨fun q hq => ?_, fun body hr htc => ?_⟩
            · simp only [cacheResponse, CacheMap.set, if_neg hq]
              exact hc1 q hq
            · cases hr
              simp [cacheResponse, CacheMap.set]

/-- Witness for C9: a concrete engine whose before-hook injects a header
still stores under the key derived from the unmutated options; an unrelated
key is untouched. -/
theorem C9_key_derived_before_hooks_witness :
    ((fetchWithCache
        (mkAPIRequestCacher 3
          [fun o => .ok { o with headers := some [("Authorization", "Bearer t")] }] [] none false)
        (fun _ _ => .ok (.val (.jnum 2))) 0 CacheMap.empty "u" {} false).state "other" =
      CacheMap.empty "other") ∧
    (fetchWithCache
        (mkAPIRequestCacher 3
          [fun o => .ok { o with headers := some [("Authorization", "Bearer t")] }] [] none false)
        (fun _ _ => .ok (.val (.jnum 2))) 0 CacheMap.empty "u" {} false).state
      (getCacheKey "u" {}) = some ⟨0, .val (.jnum 2)⟩ :=
  ⟨(C9_key_derived_before_hooks
      (mkAPIRequestCacher 3
        [fun o => .ok { o with headers := some [("Authorization", "Bearer t")] }] [] none false)
      (fun _ _ => .ok (.val (.jnum 2))) 0 CacheMap.empty "u" {} false).1 "other" (by decide),
   (C9_key_derived_before_hooks
      (mkAPIRequestCacher 3
        [fun o => .ok { o with headers := some [("Authorization", "Bearer t")] }] [] none false)
      (fun _ _ => .ok (.val (.jnum 2))) 0 CacheMap.empty "u" {} false).2
      (.val (.jnum 2)) rfl (List.cons_ne_nil _ _)⟩

/-- Claim C10, confirmed: on a successful transport response the decoded body
is stored in the cache before the after-hooks run, so a throwing after-hook
rejects the caller's promise with the hook's error while the entry stays
cached; a subsequent identical call within the TTL is a pure cache hit
returning that body with no transport call. -/
theorem C10_cached_before_after_hooks (cfg : Config) (transport : Transport)
    (now now2 : Int) (cache cache1 : CacheMap) (url : String)
    (options options2 : RequestInit) (text responseBody : Wire) (e : String) (force : Bool)
    (hchk : (if force then ((false : Bool), cache)
        else isInCache cfg.cacheDuration now cache (getCacheKey url options)) = (false, cache1))
    (hb : executeBeforeRequestHooks cfg.beforeRequestHooks options = .ok options2)
    (ht : transport url options2 = .ok text)
    (hd : (if cfg.encryptRequests then decryptResponseBody cfg text else jsonParseText text) =
      .ok responseBody)
    (ha : executeAfterRequestHooks cfg.afterRequestHooks responseBody = .error e)
    (httl : now2 - now ≤ cfg.cacheDuration) :
    fetchWithCache cfg transport now cache url options force =
      ⟨.error (.hookError e), cacheResponse cache1 (getCacheKey url options) now responseBody,
        [(url, options2)], true, true⟩ ∧
    fetchWithCache cfg transport now2
        (cacheResponse cache1 (getCacheKey url options) now responseBody) url options false =
      ⟨.ok responseBody, cacheResponse cache1 (getCacheKey url options) now responseBody,
        [], false, false⟩ := by
  refine ⟨fetchWithCache_afterThrow hchk hb ht hd ha, ?_⟩
  exact fetchWithCache_hit (e := ⟨now, responseBody⟩)
    (by simp [cacheResponse, CacheMap.set]) httl

/-- Witness for C10: a throwing after-hook rejects the promise, yet the
value `2` is cached and the identical call 1500 ms later hits. -/
theorem C10_cached_before_after_hooks_witness :
    fetchWithCache (mkAPIRequestCacher 3 [] [fun _ => .error "afterboom"] none false)
        (fun _ _ => .ok (.val (.jnum 2))) 0 CacheMap.empty "u" {} false =
      ⟨.error (.hookError "afterboom"),
        cacheResponse CacheMap.empty (getCacheKey "u" {}) 0 (.val (.jnum 2)),
        [("u", {})], true, true⟩ ∧
    fetchWithCache (mkAPIRequestCacher 3 [] [fun _ => .error "afterboom"] none false)
        (fun _ _ => .ok (.val (.jnum 2))) 1500
        (cacheResponse CacheMap.empty (getCacheKey "u" {}) 0 (.val (.jnum 2))) "u" {} false =
      ⟨.ok (.val (.jnum 2)),
        cacheResponse CacheMap.empty (getCacheKey "u" {}) 0 (.val (.jnum 2)),
        [], false, false⟩ :=
  C10_cached_before_after_hooks (mkAPIRequestCacher 3 [] [fun _ => .error "afterboom"] none false)
    (fun _ _ => .ok (.val (.jnum 2))) 0 1500 CacheMap.empty CacheMap.empty "u" {} {}
    (.val (.jnum 2)) (.val (.jnum 2)) "afterboom" false rfl rfl rfl rfl rfl (by decide)

/-- Claim C6 (code bug): the theorem evaluates the code at the failing input.
With encryption enabled (`key "K"`), `post` encrypts the body before
`fetchWithCache` derives the key, so the key is built from the
salt-dependent ciphertext: two `post` calls with identical url, body and
options but different CryptoJS salts derive different keys (conjunct 1);
consequently the second identical call misses and invokes the transport
again (conjunct 2) even though the first call's entry is still fresh at that
time (conjunct 3) — encryption defeats the cache, contradicting the spec's
requirement that keys come from the pre-encryption logical body. -/
theorem C6_key_derived_from_ciphertext :
    (getCacheKey "u"
        { method := some "POST",
          body := some (encryptRequestBody (mkAPIRequestCacher 3 [] [] (some "K") true) 0
            (.jstr "b")) } ≠
      getCacheKey "u"
        { method := some "POST",
          body := some (encryptRequestBody (mkAPIRequestCacher 3 [] [] (some "K") true) 1
            (.jstr "b")) }) ∧
    ((post (mkAPIRequestCacher 3 [] [] (some "K") true)
        (fun _ _ => .ok (.cipher 7 "K" (.jnum 1))) 1000
        (post (mkAPIRequestCacher 3 [] [] (some "K") true)
          (fun _ _ => .ok (.cipher 7 "K" (.jnum 1))) 0
          CacheMap.empty "u" (.jstr "b") {} false 0).state
        "u" (.jstr "b") {} false 1).transportCalls.length = 1) ∧
    ((isInCache (mkAPIRequestCacher 3 [] [] (some "K") true).cacheDuration 1000
        (post (mkAPIRequestCacher 3 [] [] (some "K") true)
          (fun _ _ => .ok (.cipher 7 "K" (.jnum 1))) 0
          CacheMap.empty "u" (.jstr "b") {} false 0).state
        (getCacheKey "u"
          { method := some "POST",
            body := some (encryptRequestBody (mkAPIRequestCacher 3 [] [] (some "K") true) 0
              (.jstr "b")) })).1 = true) :=
  ⟨by decide, rfl, rfl⟩

/-- Claim C7, counterexample.  The empty string is a serializable body
(`JSON.stringify("") = "\"\""`, conjunct 3) but it is falsy, so
`encryptRequestBody` passes it through unencrypted (conjunct 1) while
`decryptResponseBody` — which checks only the key and the flag — still
attempts `AES.decrypt` + `JSON.parse` on it and throws (conjunct 2): the
claimed round-trip fails on this body (conjunct 4). -/
theorem C7_counterexample :
    encryptRequestBody (mkAPIRequestCacher 3 [] [] (some "K") true) 0 (.jstr "") =
      .val (.jstr "") ∧
    decryptResponseBody (mkAPIRequestCacher 3 [] [] (some "K") true)
      (encryptRequestBody (mkAPIRequestCacher 3 [] [] (some "K") true) 0 (.jstr "")) =
      .error .decodeError ∧
    jvalStringify (.jstr "") = "\"\"" ∧
    (Except.error FetchError.decodeError : Except FetchError Wire) ≠
      .ok (.val (.jstr "")) :=
  ⟨rfl, rfl, rfl, fun h => nomatch h⟩

/-- Claim C7, amended: with encryption enabled and a fixed truthy
(non-empty) key — an empty-string key is falsy in JS, so the code treats it
as no key at all — the round-trip
`decryptResponseBody (encryptRequestBody body) = body` holds for every
truthy serializable body (falsy bodies skip encryption and fail the decrypt,
see the counterexample); and the value a successful call stores in the cache
is the decoded logical value, never the encrypted wire form: when the
transport returns a ciphertext under the engine's key, the entry stored
under the derived key holds the decrypted plain value. -/
theorem C7_roundtrip_truthy_and_decoded_cached (cfg : Config) (ek : String)
    (hkey : cfg.encryptionKey = some ek) (hek : ek ≠ "")
    (henc : cfg.encryptRequests = true) :
    (∀ salt body, jvalTruthy body = true →
      decryptResponseBody cfg (encryptRequestBody cfg salt body) = .ok (.val body)) ∧
    (∀ (transport : Transport) (now : Int) (cache cache1 : CacheMap) (url : String)
      (options options2 : RequestInit) (salt : Nat) (plain : Jval) (force : Bool),
      (if force then ((false : Bool), cache)
        else isInCache cfg.cacheDuration now cache (getCacheKey url options)) = (false, cache1) →
      executeBeforeRequestHooks cfg.beforeRequestHooks options = .ok options2 →
      transport url options2 = .ok (.cipher salt ek plain) →
      (fetchWithCache cfg transport now cache url options force).state
        (getCacheKey url options) = some ⟨now, .val plain⟩) := by
  constructor
  · intro salt body htruthy
    simp [encryptRequestBody, decryptResponseBody, hkey, hek, henc, htruthy]
  · intro transport now cache cache1 url options options2 salt plain force hchk hb ht
    have hd : (if cfg.encryptRequests then decryptResponseBody cfg (.cipher salt ek plain)
        else jsonParseText (.cipher salt ek plain)) = .ok (.val plain) := by
      simp [henc, decryptResponseBody, hkey, hek]
    cases ha : executeAfterRequestHooks cfg.afterRequestHooks (.val plain) with
    | ok u =>
      cases u
      rw [fetchWithCache_success hchk hb ht hd ha]
      simp [cacheResponse, CacheMap.set]
    | error e =>
      rw [fetchWithCache_afterThrow hchk hb ht hd ha]
      simp [cacheResponse, CacheMap.set]

/-- Witness for C7: the round-trip recovers the truthy body `5`, and a call
whose transport answers with a ciphertext of `5` under the engine's key
caches the decoded `5`. -/
theorem C7_roundtrip_witness :
    decryptResponseBody (mkAPIRequestCacher 3 [] [] (some "K") true)
      (encryptRequestBody (mkAPIRequestCacher 3 [] [] (some "K") true) 0 (.jnum 5)) =
      .ok (.val (.jnum 5)) ∧
    (fetchWithCache (mkAPIRequestCacher 3 [] [] (some "K") true)
        (fun _ _ => .ok (.cipher 9 "K" (.jnum 5))) 0 CacheMap.empty "u" {} false).state
      (getCacheKey "u" {}) = some ⟨0, .val (.jnum 5)⟩ :=
  ⟨(C7_roundtrip_truthy_and_decoded_cached (mkAPIRequestCacher 3 [] [] (some "K") true) "K"
      rfl (by decide) rfl).1 0 (.jnum 5) rfl,
   (C7_roundtrip_truthy_and_decoded_cached (mkAPIRequestCacher 3 [] [] (some "K") true) "K"
      rfl (by decide) rfl).2 (fun _ _ => .ok (.cipher 9 "K" (.jnum 5))) 0 CacheMap.empty
     CacheMap.empty "u" {} {} 9 (.jnum 5) false rfl rfl rfl⟩

/-- Unescaping inverts escaping, character by character. -/
theorem unescape_escape (s : List Char) : unescapeChars (escapeChars s) = s := by
  induction s with
  | nil => rfl
  | cons c cs ih =>
    by_cases hc : c = '"' ∨ c = '\\'
    · rw [show escapeChars (c :: cs) = '\\' :: c :: escapeChars cs by
        simp [escapeChars, escChar, if_pos hc]]
      rw [unescapeChars.eq_def]
      simp [ih]
    · have hc2 : ¬c = '\\' := fun h => hc (Or.inr h)
      rw [show escapeChars (c :: cs) = c :: escapeChars cs by
        simp [escapeChars, escChar, if_neg hc]]
      rw [unescapeChars.eq_def]
      simp [hc2, ih]

/-- Escaping is injective (it has a left inverse). -/
theorem escapeChars_inj {s t : List Char} (h : escapeChars s = escapeChars t) : s = t := by
  have h2 := congrArg unescapeChars h
  rwa [unescape_escape, unescape_escape] at h2

/-- The JSON string serialization is injective. -/
theorem jsonQuote_inj {s t : String} (h : jsonQuote s = jsonQuote t) : s = t := by
  have hd : ('"' :: escapeChars s.data) ++ ['"'] = ('"' :: escapeChars t.data) ++ ['"'] :=
    congrArg String.data h
  have hc := List.append_cancel_right hd
  injection hc with h1 hc2
  exact String.ext (escapeChars_inj hc2)

/-- Splitting a colon-joined concatenation: when the leading segments are
colon-free, equal concatenations have equal segments and equal tails. -/
theorem colon_split {u1 u2 r1 r2 : List Char}
    (h1 : ':' ∉ u1) (h2 : ':' ∉ u2)
    (h : u1 ++ ':' :: r1 = u2 ++ ':' :: r2) : u1 = u2 ∧ r1 = r2 := by
  induction u1 generalizing u2 with
  | nil =>
    cases u2 with
    | nil => exact ⟨rfl, by simpa using h⟩
    | cons d ds =>
      exfalso
      have h9 : ':' :: r1 = d :: (ds ++ ':' :: r2) := by simpa using h
      injection h9 with hd htl
      subst hd
      exact h2 (List.mem_cons_self _ _)
  | cons c cs ih =>
    cases u2 with
    | nil =>
      exfalso
      have h9 : c :: (cs ++ ':' :: r1) = ':' :: r2 := by simpa using h
      injection h9 with hc htl
      subst hc
      exact h1 (List.mem_cons_self _ _)
    | cons d ds =>
      have h9 : c :: (cs ++ ':' :: r1) = d :: (ds ++ ':' :: r2) := by simpa using h
      injection h9 with hcd htl
      have h1n : ':' ∉ cs := fun hm => h1 (List.mem_cons_of_mem _ hm)
      have h2n : ':' ∉ ds := fun hm => h2 (List.mem_cons_of_mem _ hm)
      obtain ⟨hu, hr⟩ := ih h1n h2n htl
      exact ⟨by rw [hcd, hu], hr⟩

/-- Canonical form of the cache key for a request with an explicit non-empty
method and a present non-empty string body. -/
theorem getCacheKey_canon (u m : String) (hdrs : Option (List (String × String))) (b : String)
    (hm : m ≠ "") (hb : b ≠ "") :
    getCacheKey u { method := some m, headers := hdrs, body := some (.val (.jstr b)) } =
      u ++ ":" ++ m ++ ":" ++ (hdrs.elim "" headersStringify) ++ ":" ++ jsonQuote b := by
  cases hdrs with
  | none =>
    simp [getCacheKey, wireTruthy, jvalTruthy, wireStringify, jvalStringify, hm, hb,
      Option.elim]
  | some hs =>
    simp [getCacheKey, wireTruthy, jvalTruthy, wireStringify, jvalStringify, hm, hb,
      Option.elim]

/-- Injectivity of the colon-joined key string when url and method are
colon-free and the headers segment is shared. -/
theorem key_concat_inj (u1 u2 m1 m2 H q1 q2 : String)
    (hu1 : ':' ∉ u1.data) (hu2 : ':' ∉ u2.data)
    (hm1 : ':' ∉ m1.data) (hm2 : ':' ∉ m2.data)
    (h : u1 ++ ":" ++ m1 ++ ":" ++ H ++ ":" ++ q1 = u2 ++ ":" ++ m2 ++ ":" ++ H ++ ":" ++ q2) :
    u1 = u2 ∧ m1 = m2 ∧ q1 = q2 := by
  have hcolon : (":" : String).data = [':'] := rfl
  have hd : u1.data ++ ':' :: (m1.data ++ ':' :: (H.data ++ ':' :: q1.data)) =
      u2.data ++ ':' :: (m2.data ++ ':' :: (H.data ++ ':' :: q2.data)) := by
    have h0 := congrArg String.data h
    simpa [String.data_append, hcolon] using h0
  obtain ⟨hu, hd2⟩ := colon_split hu1 hu2 hd
  obtain ⟨hm, hd3⟩ := colon_split hm1 hm2 hd2
  have hq : q1.data = q2.data := by
    have hc := List.append_cancel_left hd3
    simpa using hc
  exact ⟨String.ext hu, String.ext hm, String.ext hq⟩

/-- Claim C1, counterexample.  The claim says two requests differing in url,
method, or body always get different keys.  The `:` separator is not escaped,
so the url `"a:b"` with method `"GET"` and the url `"a"` with method
`"b:GET"` — requests differing in both url and method — produce the same
key. -/
theorem C1_counterexample :
    getCacheKey "a:b" { method := some "GET" } = getCacheKey "a" { method := some "b:GET" } ∧
    "a:b" ≠ "a" := by
  decide

/-- Claim C1, amended.  Determinism holds definitionally (`getCacheKey` is a
pure function of the url and options).  Distinctness holds away from the
separator collisions the counterexample exhibits: for two requests with the
same headers, colon-free urls and (non-empty) colon-free methods, and
present non-empty string bodies, differing in any of url, method, or body
forces different keys. -/
theorem C1_distinct_keys_when_colon_free
    (u1 u2 m1 m2 : String) (hdrs : Option (List (String × String))) (b1 b2 : String)
    (hu1 : ':' ∉ u1.data) (hu2 : ':' ∉ u2.data)
    (hm1 : ':' ∉ m1.data) (hm2 : ':' ∉ m2.data)
    (hm1e : m1 ≠ "") (hm2e : m2 ≠ "") (hb1 : b1 ≠ "") (hb2 : b2 ≠ "")
    (hne : ¬(u1 = u2 ∧ m1 = m2 ∧ b1 = b2)) :
    getCacheKey u1 { method := some m1, headers := hdrs, body := some (.val (.jstr b1)) } ≠
      getCacheKey u2 { method := some m2, headers := hdrs, body := some (.val (.jstr b2)) } := by
  intro hkeys
  apply hne
  rw [getCacheKey_canon u1 m1 hdrs b1 hm1e hb1,
    getCacheKey_canon u2 m2 hdrs b2 hm2e hb2] at hkeys
  obtain ⟨hu, hm, hq⟩ := key_concat_inj u1 u2 m1 m2 (hdrs.elim "" headersStringify)
    (jsonQuote b1) (jsonQuote b2) hu1 hu2 hm1 hm2 hkeys
  exact ⟨hu, hm, jsonQuote_inj hq⟩

/-- Witness for C1: two concrete requests differing only in the url get
different keys. -/
theorem C1_distinct_keys_witness :
    getCacheKey "a" { method := some "GET", headers := none, body := some (.val (.jstr "x")) } ≠
      getCacheKey "b" { method := some "GET", headers := none, body := some (.val (.jstr "x")) } :=
  C1_distinct_keys_when_colon_free "a" "b" "GET" "GET" none "x" "x"
    (by decide) (by decide) (by decide) (by decide) (by decide) (by decide)
    (by decide) (by decide) (by decide)
